import Mathlib

/-!
# Verification of the WAForth runtime shim (`src/web/waforth.ts`)

A shallow embedding of the JavaScript shell class `WAForth` that wraps the
WAForth WebAssembly core, together with proofs of the specified properties.

Modelling conventions:

* Linear memory is a total byte store `Nat → Nat`; `Uint8Array` stores truncate
  to a byte, which we render as `% 256`.
* The VM operand stack is a `List Int` with the head as top of stack; the shim
  only touches it through the core's `push`/`pop` exports.
* The input buffer is a JavaScript array used as a stack (`push`/`pop` at the
  end).  We represent it with the most recently pushed byte at the head of the
  list, so a JS `push` is `::` and a JS `pop` takes the head.
* Strings are lists of UTF-16 code units (`charCodeAt` values) for the
  marshalling layer, and lists of already-encoded bytes (`TextEncoder` output)
  for the input buffer.
* The WebAssembly core (`waforth.wat`) is out of scope and opaque; where a
  claim needs one of its behaviours (the `interpret` entry point, `EXECUTE`,
  the self-registration of a loaded unit) it is modelled from the spec and
  marked as such.
-/

namespace Shim

/-- `PAD_OFFSET` constant from the source (`const PAD_OFFSET = 400`). -/
def PAD_OFFSET : Nat := 400

/-- State of the shim-visible parts of a `WAForth` instance: the core's linear
memory, its operand stack (head = top), its dictionary high-water mark as
reported by the `here` export, and the shell-owned input buffer
(head = most recently pushed byte). -/
structure WF where
  mem : Nat → Nat
  stack : List Int
  here : Nat
  buffer : List Nat

/-- `push(n)`: pass-through to the core's `push` export. -/
def WF.push (st : WF) (n : Int) : WF :=
  { st with stack := n :: st.stack }

/-! ## Input buffer -/

/-- `getc` shell import:
`if (buffer.length === 0) return -1; return buffer.pop();`.
Returns the popped byte (or the end-of-input sentinel `-1`) and the remaining
buffer. -/
def getc : List Nat → Int × List Nat
  | [] => (-1, [])
  | c :: rest => ((c : Int), rest)

/-- `read(s)` on the buffer level: the loop
`for (let i = data.length - 1; i >= 0; --i) buffer.push(data[i]);`
pushes the encoded bytes of `s` in reverse index order.  `data` is the
`TextEncoder().encode(s)` byte sequence. -/
def readBytes (data : List Nat) (buffer : List Nat) : List Nat :=
  data.reverse.foldl (fun b x => x :: b) buffer

/-- `read(s)` method: pushes the encoded bytes of `s` onto the instance's
input buffer. -/
def WF.read (st : WF) (data : List Nat) : WF :=
  { st with buffer := readBytes data st.buffer }

/-- Observer: repeatedly call `getc` until the buffer is empty, then record the
one end-of-input sentinel `getc` yields there. -/
def drain : List Nat → List Int
  | [] => [-1]
  | c :: rest => (c : Int) :: drain rest

theorem readBytes_eq (data buffer : List Nat) :
    readBytes data buffer = data ++ buffer := by
  induction data generalizing buffer with
  | nil => simp [readBytes]
  | cons x xs ih =>
    simp only [readBytes, List.reverse_cons, List.foldl_append, List.foldl_cons,
      List.foldl_nil] at *
    rw [ih buffer, List.cons_append]

theorem drain_append (l₁ l₂ : List Nat) :
    drain (l₁ ++ l₂) = l₁.map (fun c => (c : Int)) ++ drain l₂ := by
  induction l₁ with
  | nil => simp
  | cons c rest ih => simp [drain, ih]

theorem drain_eq (l : List Nat) :
    drain l = l.map (fun c => (c : Int)) ++ [-1] := by
  simpa [drain] using drain_append l []

/-- C5: `read("AB")` then draining yields 'A' (65), 'B' (66), then the
end-of-input sentinel -1, in that order; in general, draining an input buffer
that received `read(s)` on top of pending bytes yields the bytes of `s` in
forward order first, and an empty buffer yields just the sentinel. -/
theorem read_then_drain (data buffer : List Nat) :
    drain (readBytes [65, 66] []) = [65, 66, -1] ∧
    drain (readBytes data buffer) =
      data.map (fun c => (c : Int)) ++ drain buffer ∧
    getc [] = (-1, []) := by
  refine ⟨by decide, ?_, rfl⟩
  rw [readBytes_eq, drain_append]

/-- C10: `read(s1)` followed by `read(s2)` with no intervening consumption:
draining yields the bytes of `s2` in forward order, then the bytes of `s1` in
forward order, then the sentinel — pending fragments are consumed
last-queued-first. -/
theorem read_read_drain (s1 s2 : List Nat) :
    drain (((WF.read ⟨fun _ => 0, [], 0, []⟩ s1).read s2).buffer) =
      s2.map (fun c => (c : Int)) ++ s1.map (fun c => (c : Int)) ++ [-1] := by
  simp [WF.read, readBytes_eq, drain_append, drain_eq]

/-! ## String marshalling -/

/-- `loadString(memory, addr, len)`: read `len` bytes starting at `addr` from
linear memory, as a list of character codes. -/
def loadString (mem : Nat → Nat) (addr len : Nat) : List Nat :=
  (List.range len).map (fun i => mem (addr + i))

/-- `saveString(s, memory, addr)`: write `s.charCodeAt(i)` into the
`Uint8Array` view at `addr + i` for each `i < s.length`; the `Uint8Array`
store truncates each code unit to a byte (`% 256`).  Returns the updated
memory. -/
def saveString (s : List Nat) (mem : Nat → Nat) (addr : Nat) : Nat → Nat :=
  fun j => if addr ≤ j ∧ j < addr + s.length then s.getD (j - addr) 0 % 256 else mem j

/-- `pushString(s)`: compute the scratch address `here() + PAD_OFFSET`, write
the string's code units there with `saveString`, push the address and then the
length, and return `addr + PAD_OFFSET` (the source's return value). -/
def WF.pushString (st : WF) (s : List Nat) : WF × Nat :=
  let addr := st.here + PAD_OFFSET
  let st' := { st with mem := saveString s st.mem addr }
  (((st'.push (addr : Int)).push (s.length : Int)), addr + PAD_OFFSET)

/-- `popString()`: pop the length, then the address, and read that many bytes
back with `loadString`.  `none` models a stack underflow in the core's `pop`
export. -/
def WF.popString (st : WF) : Option (List Nat × WF) :=
  match st.stack with
  | len :: addr :: rest =>
      some (loadString st.mem addr.toNat len.toNat, { st with stack := rest })
  | _ => none

theorem loadString_saveString (s : List Nat) (mem : Nat → Nat) (addr : Nat) :
    loadString (saveString s mem addr) addr s.length = s.map (· % 256) := by
  ext1 i
  simp only [loadString, saveString, List.getElem?_map]
  rcases Nat.lt_or_ge i s.length with hi | hi
  · rw [List.getElem?_eq_getElem (by simpa using hi), List.getElem?_eq_getElem hi]
    simp [List.getElem_range, List.getD_eq_getElem?_getD, List.getElem?_eq_getElem hi]
    omega
  · rw [List.getElem?_eq_none (by simpa using hi), List.getElem?_eq_none hi]
    rfl

/-- An initial instance state used for concrete evaluations: zeroed memory,
empty operand stack, dictionary mark 0, empty input buffer. -/
def wf0 : WF := { mem := fun _ => 0, stack := [], here := 0, buffer := [] }

/-- C3 counterexample: the claim fails for a string whose code unit does not
fit in a byte.  `pushString` on the one-character string with code unit 256
(U+0100) stores `256 % 256 = 0`, so the immediately following `popString`
returns the NUL character, not the original string. -/
theorem pushString_popString_not_exact :
    ((wf0.pushString [256]).1.popString).map Prod.fst = some [0] ∧
      ([0] : List Nat) ≠ [256] := by
  constructor
  · rfl
  · decide

/-- C3 (amended): for every string all of whose code units fit in a byte
(< 256), `pushString(s)` immediately followed by `popString()` returns exactly
`s`, and leaves the operand stack as it was before the pair of calls. -/
theorem pushString_popString_roundtrip (st : WF) (s : List Nat)
    (h : ∀ c ∈ s, c < 256) :
    ∃ st' : WF, (st.pushString s).1.popString = some (s, st') ∧
      st'.stack = st.stack := by
  refine ⟨{ st with mem := saveString s st.mem (st.here + PAD_OFFSET) }, ?_, rfl⟩
  have hmap : ∀ l : List Nat, (∀ c ∈ l, c < 256) → l.map (· % 256) = l := by
    intro l
    induction l with
    | nil => intro _; rfl
    | cons c cs ih =>
      intro hl
      simp only [List.map_cons, List.cons.injEq]
      exact ⟨Nat.mod_eq_of_lt (hl c (by simp)), ih (fun d hd => hl d (by simp [hd]))⟩
  simp only [WF.pushString, WF.push, WF.popString, Int.toNat_natCast]
  rw [loadString_saveString, hmap s h]

/-- C3 witness. -/
theorem pushString_popString_roundtrip_witness :
    ∃ st' : WF, (wf0.pushString [65, 66]).1.popString = some ([65, 66], st') ∧
      st'.stack = wf0.stack :=
  pushString_popString_roundtrip wf0 [65, 66] (by decide)

/-- C9 counterexample: two consecutive `pushString` calls with different
strings DO alias when the dictionary high-water mark has not moved between
them.  From the initial state, `pushString "AB"` writes at
`here + PAD_OFFSET = 400`; the immediately following `pushString "CD"`
recomputes the same address 400 (`here` is unchanged — `pushString` does not
advance it) and overwrites the first string's bytes: the byte at 400 is 67
('C') afterwards, where the first call had written 65 ('A'). -/
theorem pushString_consecutive_alias :
    ((wf0.pushString [65, 66]).1).mem (wf0.here + PAD_OFFSET) = 65 ∧
    ((wf0.pushString [65, 66]).1).here + PAD_OFFSET = wf0.here + PAD_OFFSET ∧
    (((wf0.pushString [65, 66]).1.pushString [67, 68]).1).mem
        (wf0.here + PAD_OFFSET) = 67 := by
  refine ⟨rfl, rfl, rfl⟩

/-- C9 (amended): each `pushString` call recomputes its scratch address as the
then-current high-water mark plus `PAD_OFFSET` and pushes exactly that
address and the length (nothing is cached across calls), it writes nothing
outside its own scratch region, and — provided the high-water mark has
advanced by at least the first string's length between the calls — the second
call's write leaves the region holding the first string's bytes intact. -/
theorem pushString_no_alias (st st2 : WF) (s1 s2 : List Nat)
    (hadv : st.here + s1.length ≤ st2.here) :
    (st.pushString s1).1.stack
        = (s1.length : Int) :: ((st.here + PAD_OFFSET : Nat) : Int) :: st.stack ∧
    (st2.pushString s2).1.stack
        = (s2.length : Int) :: ((st2.here + PAD_OFFSET : Nat) : Int) :: st2.stack ∧
    (∀ j, j < st.here + PAD_OFFSET ∨ st.here + PAD_OFFSET + s1.length ≤ j →
      (st.pushString s1).1.mem j = st.mem j) ∧
    (∀ j, st.here + PAD_OFFSET ≤ j → j < st.here + PAD_OFFSET + s1.length →
      (st2.pushString s2).1.mem j = st2.mem j) := by
  refine ⟨rfl, rfl, ?_, ?_⟩
  · intro j hj
    simp only [WF.pushString, WF.push, saveString]
    rw [if_neg]
    omega
  · intro j hj1 hj2
    simp only [WF.pushString, WF.push, saveString]
    rw [if_neg]
    omega

/-- C9 witness: the amended no-aliasing property at concrete states — first
call from the initial state with "AB", second call after the high-water mark
advanced to 2, with "CD". -/
theorem pushString_no_alias_witness :
    (wf0.pushString [65, 66]).1.stack
        = ((2 : Nat) : Int) :: ((wf0.here + PAD_OFFSET : Nat) : Int) :: wf0.stack ∧
    (({ wf0 with here := 2 }).pushString [67, 68]).1.stack
        = ((2 : Nat) : Int) :: ((({ wf0 with here := 2 }).here + PAD_OFFSET : Nat) : Int) ::
            ({ wf0 with here := 2 }).stack ∧
    (∀ j, j < wf0.here + PAD_OFFSET ∨ wf0.here + PAD_OFFSET + 2 ≤ j →
      (wf0.pushString [65, 66]).1.mem j = wf0.mem j) ∧
    (∀ j, wf0.here + PAD_OFFSET ≤ j → j < wf0.here + PAD_OFFSET + 2 →
      (({ wf0 with here := 2 }).pushString [67, 68]).1.mem j
        = ({ wf0 with here := 2 }).mem j) :=
  pushString_no_alias wf0 { wf0 with here := 2 } [65, 66] [67, 68] (by decide)

/-! ## Dynamic module loader: the indirect call table -/

/-- State of the shared indirect call table: its current length and which
indices hold a registered entry point. -/
structure TableState where
  len : Nat
  assigned : Nat → Bool

/-- The table-growth step of the `load` shell import:
`if (index >= table.length) { table.grow(table.length); } // Double size`. -/
def growIfNeeded (len index : Nat) : Nat :=
  if len ≤ index then len + len else len

/-- The `load(offset, length, index)` shell import, abstracted over whether
the extracted bytes compile and instantiate successfully (`compiles`).  The
table is doubled when `index` is not below the current length, *before* the
compile/instantiate attempt; a compile or instantiate failure is re-raised
(`Except.error`), with the already-grown table in the state at the raise.
The successful unit's side effect is modelled from the spec: "instantiation
is expected to have the side effect of the unit registering its own entry
point at `index` in the shared table" (the dynamically generated units are
produced by the opaque core, not by the shell source). -/
def loadUnit (compiles : Bool) (index : Nat) (st : TableState) :
    Except TableState TableState :=
  let len' := growIfNeeded st.len index
  if compiles then
    Except.ok { len := len', assigned := fun i => i == index || st.assigned i }
  else
    Except.error { st with len := len' }

/-- Table lengths after each call of a sequence of `load` calls with the
given indices (the growth step runs before the compile attempt, so only the
index sequence matters for the length). -/
def tableLens : Nat → List Nat → List Nat
  | _, [] => []
  | len, i :: is => growIfNeeded len i :: tableLens (growIfNeeded len i) is

theorem growIfNeeded_le (len index : Nat) : len ≤ growIfNeeded len index := by
  unfold growIfNeeded
  split <;> omega

theorem growIfNeeded_gt (len index : Nat) (h : index < 2 * len) :
    index < growIfNeeded len index := by
  unfold growIfNeeded
  split <;> omega

/-- C1 counterexample: a single `load` call with `index = 2` on a table of
length 1 doubles the length once, to 2, which does not exceed the index:
growth is performed at most once per call, so a sufficiently large index is
not covered. -/
theorem load_table_growth_counterexample :
    tableLens 1 [2] = [2] ∧ ¬ (2 : Nat) < (tableLens 1 [2]).getD 0 0 := by
  decide

/-- C1 (amended): over any sequence of `load` calls, the table length never
shrinks (the lengths after each call form a monotone chain above the initial
length), and after each call whose index is below twice the pre-call length,
the table length exceeds that index. -/
theorem load_table_growth (len0 : Nat) (is : List Nat) :
    List.Chain' (· ≤ ·) (len0 :: tableLens len0 is) ∧
    ∀ k, k < is.length →
      is.getD k 0 < 2 * (len0 :: tableLens len0 is).getD k 0 →
      is.getD k 0 < (tableLens len0 is).getD k 0 := by
  induction is generalizing len0 with
  | nil => simp [tableLens]
  | cons i rest ih =>
    refine ⟨?_, ?_⟩
    · exact List.Chain'.cons (growIfNeeded_le len0 i) (ih (growIfNeeded len0 i)).1
    · intro k hk
      cases k with
      | zero =>
        simpa [tableLens] using growIfNeeded_gt len0 i
      | succ k' =>
        simp only [tableLens, List.getD_cons_succ, List.length_cons] at *
        exact (ih (growIfNeeded len0 i)).2 k' (by omega)

/-- C1 witness: the amended growth property for the concrete sequence of
indices `[1, 2]` from initial length 1, with the hypotheses discharged for
the first call. -/
theorem load_table_growth_witness :
    List.Chain' (· ≤ ·) (1 :: tableLens 1 [1, 2]) ∧
      (1 : Nat) < (tableLens 1 [1, 2]).getD 0 0 :=
  ⟨(load_table_growth 1 [1, 2]).1,
    (load_table_growth 1 [1, 2]).2 0 (by decide) (by decide)⟩

/-- C2 counterexample: a `load` whose unit fails to compile, issued with
`index = 1` on a table of length 1, raises — but the table growth performed
before the compile attempt persists: the effective table length after the
failed call is 2, not the pre-call length 1. -/
theorem load_failed_not_precall_length :
    loadUnit false 1 ⟨1, fun _ => false⟩
        = Except.error ⟨2, fun _ => false⟩ ∧ (2 : Nat) ≠ 1 := by
  exact ⟨rfl, by decide⟩

/-- C2 (amended): `load` either fully completes — on a successful compile and
instantiation the unit is registered at `index`, and when `index` is below
twice the pre-call length the table length is sufficient — or raises with no
entry installed; on failure the registered entries are exactly the pre-call
ones, and the table length is the pre-call length when no growth was
triggered (`index` below the pre-call length), while a growth triggered
before the failure persists (length doubled). -/
theorem load_atomicity (index : Nat) (st : TableState) :
    (∃ st', loadUnit true index st = Except.ok st' ∧
      st'.assigned index = true ∧ st'.len = growIfNeeded st.len index ∧
      (index < 2 * st.len → index < st'.len)) ∧
    (∃ st', loadUnit false index st = Except.error st' ∧
      st'.assigned = st.assigned ∧ st'.len = growIfNeeded st.len index ∧
      (index < st.len → st'.len = st.len)) := by
  constructor
  · refine ⟨_, rfl, by simp, rfl, ?_⟩
    intro h
    exact growIfNeeded_gt st.len index h
  · refine ⟨_, rfl, rfl, rfl, ?_⟩
    intro h
    unfold growIfNeeded
    rw [if_neg]
    omega

/-- C2 witness: the amended atomicity at `index = 0`, table length 1. -/
theorem load_atomicity_witness :
    (∃ st', loadUnit true 0 ⟨1, fun _ => false⟩ = Except.ok st' ∧
      st'.assigned 0 = true ∧ st'.len = growIfNeeded 1 0 ∧
      (0 < 2 * 1 → 0 < st'.len)) ∧
    (∃ st', loadUnit false 0 ⟨1, fun _ => false⟩ = Except.error st' ∧
      st'.assigned = (fun _ => false) ∧ st'.len = growIfNeeded 1 0 ∧
      (0 < 1 → st'.len = 1)) :=
  load_atomicity 0 ⟨1, fun _ => false⟩

/-- C8: a `load` call with `index` equal to the current table length exactly
doubles the capacity, while a call with `index` strictly below the current
length performs no growth. -/
theorem load_boundary_growth (len index : Nat) (h : index < len) :
    growIfNeeded len len = 2 * len ∧ growIfNeeded len index = len := by
  unfold growIfNeeded
  constructor
  · rw [if_pos (le_refl len)]
    omega
  · rw [if_neg]
    omega

/-- C8 witness: boundary doubling versus no growth at length 3, index 1. -/
theorem load_boundary_growth_witness :
    growIfNeeded 3 3 = 2 * 3 ∧ growIfNeeded 3 1 = 3 :=
  load_boundary_growth 3 1 (by decide)

/-! ## Foreign call dispatcher -/

/-- The `call` shell import: pops the length, then the address, reads the
call's name from memory, and looks it up in the `#fns` record; if absent it
logs `"Unbound SCALL"` and does nothing further; if present it invokes the
bound handler on the instance.  `fns` models `#fns` as a partial map keyed by
the name's character codes; the returned flag records whether the
unbound-name error was logged.  `none` models a stack underflow in the core's
`pop` export. -/
def call (fns : List Nat → Option (WF → WF)) (st : WF) : Option (WF × Bool) :=
  match st.stack with
  | len :: addr :: rest =>
      let fname := loadString st.mem addr.toNat len.toNat
      let st1 : WF := { st with stack := rest }
      match fns fname with
      | none => some (st1, true)
      | some fn => some (fn st1, false)
  | _ => none

/-- C6: dispatching a name with no bound handler pops the length and then the
address naming the call, logs, and performs no further action: the resulting
state is exactly the pre-call state with the two values popped — memory,
high-water mark, input buffer and the rest of the stack untouched, no value
substituted. -/
theorem call_unbound_no_op (fns : List Nat → Option (WF → WF)) (st : WF)
    (len addr : Int) (rest : List Int)
    (hstack : st.stack = len :: addr :: rest)
    (hunbound : fns (loadString st.mem addr.toNat len.toNat) = none) :
    call fns st = some ({ st with stack := rest }, true) := by
  simp [call, hstack, hunbound]

/-- A concrete instance state for the dispatcher: the name (address 400,
length 1) on top of the stack. -/
def wfCall : WF := { mem := fun _ => 0, stack := [1, 400], here := 0, buffer := [] }

/-- C6 witness: dispatch with an empty handler table on a concrete state. -/
theorem call_unbound_no_op_witness :
    call (fun _ => none) wfCall = some ({ wfCall with stack := [] }, true) :=
  call_unbound_no_op (fun _ => none) wfCall 1 400 [] rfl rfl

/-! ## `interpret` -/

/-- `interpret(s)`: `read(s)` into the input buffer, then invoke the core's
`interpret` entry point inside `try`/`catch`, discarding any exception.  The
core is opaque (not part of the shell source); it is an arbitrary state
transformer that either returns normally with a value or raises carrying the
state at the raise (a JavaScript exception does not undo side effects already
performed).  The catch block swallows the exception, so the shim returns
normally in both cases — with no value on a swallowed signal. -/
def interpret (core : WF → Except WF (Int × WF)) (data : List Nat) (st : WF) :
    Option Int × WF :=
  let st1 := st.read data
  match core st1 with
  | Except.ok (v, st2) => (some v, st2)
  | Except.error st2 => (none, st2)

/-- C7: an abort/quit signal raised by the core during `interpret` is caught
and discarded: `interpret` returns normally (its result type has no error
alternative, so no error reaches the caller), and the state carried by the
signal — every side effect performed before it — is the effective resulting
state. -/
theorem interpret_swallows_signal (core : WF → Except WF (Int × WF))
    (data : List Nat) (st st2 : WF)
    (hsig : core (st.read data) = Except.error st2) :
    interpret core data st = (none, st2) := by
  simp [interpret, hsig]

/-- C7 witness: a core that always signals, on the initial state. -/
theorem interpret_swallows_signal_witness :
    interpret (fun s => Except.error s) [] wf0 = (none, wf0.read []) :=
  interpret_swallows_signal (fun s => Except.error s) [] wf0 (wf0.read []) rfl

/-! ## `bindAsync` -/

/-- Modelled from the spec: the VM's generic "execute token" entry point (the
wrapper's `this.interpret("EXECUTE")`, whose effect lives in the opaque
core): it pops the top of the operand stack as an execution token and
invokes it, resuming the suspended execution.  The list records the tokens
the entry point consumed. -/
def executeToken (st : WF) : WF × List Int :=
  match st.stack with
  | tok :: rest => ({ st with stack := rest }, [tok])
  | [] => (st, [])

/-- The wrapper that `bindAsync(name, fn)` registers under `name` in `#fns`:
pop the continuation token `cbxt` left by the VM; run `fn`; on success push
the true flag (-1), on a failure log it (`console.error`) and push the false
flag (0); in both cases (the `finally` block) push the saved token back and
invoke `interpret("EXECUTE")`.  The settled asynchronous operation is a state
transformer returning success (`true`) or failure (`false`); a failing `fn`'s
side effects up to the throw are part of its resulting state.  Returns the
final state, the tokens consumed by the execute entry point, and whether a
failure was logged.  `none` models a stack underflow in the core's `pop`. -/
def bindAsyncWrapper (fn : WF → WF × Bool) (st : WF) :
    Option (WF × List Int × Bool) :=
  match st.stack with
  | cbxt :: rest =>
      let st1 : WF := { st with stack := rest }
      let p := fn st1
      let flag : Int := if p.2 then -1 else 0
      let st4 := (p.1.push flag).push cbxt
      let q := executeToken st4
      some (q.1, q.2, !p.2)
  | [] => none

/-- C4: the `bindAsync` wrapper first pops the continuation token (the
operation runs on the state with the token already removed), then pushes -1
on success or logs and pushes 0 on failure, and in both outcomes pushes the
saved token and hands it to the execute-token entry point, which consumes
exactly that token exactly once: afterwards the flag is on top of the
operation's resulting stack and the consumed-token list is `[cbxt]` — never
empty (dropped), never longer (replayed). -/
theorem bindAsync_token_discipline (fn : WF → WF × Bool) (st : WF)
    (cbxt : Int) (rest : List Int) (hstack : st.stack = cbxt :: rest) :
    ∃ st2 ok, fn { st with stack := rest } = (st2, ok) ∧
      bindAsyncWrapper fn st =
        some ({ st2 with stack := (if ok then (-1 : Int) else 0) :: st2.stack },
          [cbxt], !ok) := by
  refine ⟨(fn { st with stack := rest }).1, (fn { st with stack := rest }).2,
    rfl, ?_⟩
  simp [bindAsyncWrapper, hstack, executeToken, WF.push]

/-- A concrete instance state for the async bridge: continuation token 7 on
top of the stack. -/
def wfAsync : WF := { mem := fun _ => 0, stack := [7], here := 0, buffer := [] }

/-- C4 witness: a successfully settling operation that leaves the state
unchanged, with continuation token 7. -/
theorem bindAsync_token_discipline_witness :
    ∃ st2 ok, (fun s => (s, true)) ({ wfAsync with stack := ([] : List Int) })
        = (st2, ok) ∧
      bindAsyncWrapper (fun s => (s, true)) wfAsync =
        some ({ st2 with stack := (if ok then (-1 : Int) else 0) :: st2.stack },
          [7], !ok) :=
  bindAsync_token_discipline (fun s => (s, true)) wfAsync 7 [] rfl

end Shim
